import Mathlib

/-!
A shallow embedding of `main.py` from the flutter_gsheet_localization_sync
repository, together with proofs of the specification's testable properties.

Data model:
* a sheet grid is a `List (List String)` (rows of string cells);
* a Python `dict[str, str]` is an insertion-ordered association list
  `List (String × String)`;
* `parse_sheet_to_dict`, `push_values_to_sheet`, the merge loop of
  `sync_localizations`, `gather_localizations_from_arbs` and
  `fill_sheet_from_localizations` are translated function by function.

Python exceptions are modelled by `Except PyError`; the distinction between a
`ValueError` (the spec's `MalformedSheetError`) and an unguarded `IndexError`
is kept.
-/

/-- Errors raised by the script: `ValueError` with its message (the spec's
`MalformedSheetError`) and the unguarded `IndexError` from positional
indexing. -/
inductive PyError where
  | valueError (msg : String)
  | indexError
deriving DecidableEq

instance {ε α : Type} [DecidableEq ε] [DecidableEq α] : DecidableEq (Except ε α) := fun a b =>
  match a, b with
  | .ok x, .ok y =>
    if h : x = y then .isTrue (by rw [h]) else .isFalse (fun hc => h (Except.ok.inj hc))
  | .error x, .error y =>
    if h : x = y then .isTrue (by rw [h]) else .isFalse (fun hc => h (Except.error.inj hc))
  | .ok _, .error _ => .isFalse (fun hc => Except.noConfusion hc)
  | .error _, .ok _ => .isFalse (fun hc => Except.noConfusion hc)

/-- A Python `dict` with string keys: an insertion-ordered association list. -/
abbrev LangMap := List (String × String)

/-- Python `dict[str, dict[str, str]]`: TranslationId -> (LanguageCode -> text). -/
abbrev Table := List (String × LangMap)

/-! ### Python string primitives, modelled on the character list -/

/-- Whitespace stripped by Python's `str.strip()` (ASCII part). -/
def isPySpace (c : Char) : Bool :=
  c == ' ' || c == '\t' || c == '\n' || c == '\r' || c == '\x0b' || c == '\x0c'

/-- Python `str.strip()`. -/
def pyStrip (s : String) : String :=
  ⟨((s.data.dropWhile isPySpace).reverse.dropWhile isPySpace).reverse⟩

/-- Python `str.lower()` (ASCII case folding, as used on the header cell). -/
def pyLower (s : String) : String :=
  ⟨s.data.map Char.toLower⟩

/-- Python `value.replace("\\n", "\n")` on the character list: each
two-character sequence backslash-`n` becomes a real newline, scanning left to
right without overlap. -/
def unescapeNl : List Char → List Char
  | [] => []
  | '\\' :: 'n' :: rest => '\n' :: unescapeNl rest
  | c :: rest => c :: unescapeNl rest

/-- Python `value.replace("\n", "\\n")` on the character list. -/
def escapeNl : List Char → List Char
  | [] => []
  | '\n' :: rest => '\\' :: 'n' :: escapeNl rest
  | c :: rest => c :: escapeNl rest

/-- Python `value.replace("\\n", "\n")` on strings (sheet cell -> resource value). -/
def pyUnescape (s : String) : String := ⟨unescapeNl s.data⟩

/-- Python `value.replace("\n", "\\n")` on strings (resource value -> sheet cell). -/
def pyEscape (s : String) : String := ⟨escapeNl s.data⟩

/-- Python `s.startswith(p)`. -/
def pyStartsWith (s p : String) : Bool :=
  s.data.take p.data.length == p.data

/-- Python `s.endswith(p)`. -/
def pyEndsWith (s p : String) : Bool :=
  s.data.reverse.take p.data.length == p.data.reverse

/-- Python `s.split(sep)` for a one-character separator, on character lists. -/
def splitChar (sep : Char) : List Char → List (List Char)
  | [] => [[]]
  | c :: rest =>
    let r := splitChar sep rest
    if c = sep then [] :: r
    else
      match r with
      | [] => [[c]]
      | g :: gs => (c :: g) :: gs

/-! ### Ordered association lists (Python `dict` semantics) -/

/-- Lookup: value of the entry whose key equals `k` (Python `d[k]` / `d.get(k)`).
Keys are unique in every list this development builds, so first match is the
match. -/
def alGet {α : Type} : List (String × α) → String → Option α
  | [], _ => none
  | (k', v) :: rest, k => if k' = k then some v else alGet rest k

/-- Python `d[k] = v`: update in place when the key exists (keeping its
position), append a fresh entry at the end otherwise. -/
def alSet {α : Type} : List (String × α) → String → α → List (String × α)
  | [], k, v => [(k, v)]
  | (k', v') :: rest, k, v =>
    if k' = k then (k', v) :: rest else (k', v') :: alSet rest k v

/-! ### `parse_sheet_to_dict` (main.py lines 60-92) -/

/-- The inner column loop of `parse_sheet_to_dict`: for each header cell
(indices >= 1 are `hs`), the value is the row cell at the same index if
present, else `""`; `lang_translations[header[i].strip()] = value.replace("\\n", "\n")`. -/
def rowLangsAux : List String → List String → LangMap → LangMap
  | [], _, acc => acc
  | h :: hs, rv, acc =>
    rowLangsAux hs rv.tail (alSet acc (pyStrip h) (pyUnescape (rv.headD "")))

/-- The `lang_translations` dict built for one data row. -/
def rowLangs (header row : List String) : LangMap :=
  rowLangsAux header.tail row.tail []

/-- The row loop of `parse_sheet_to_dict`: skip empty rows and rows whose
trimmed first cell is empty, otherwise `translations_dict[row[0].strip()] = lang_translations`. -/
def parseRows (header : List String) : List (List String) → Table → Table
  | [], dict => dict
  | r :: rest, dict =>
    match r with
    | [] => parseRows header rest dict
    | c :: _ =>
      if pyStrip c = "" then parseRows header rest dict
      else parseRows header rest (alSet dict (pyStrip c) (rowLangs header r))

/-- Function `parse_sheet_to_dict(sheet_values)`: header validation then the row loop.
An empty header row makes `header[0]` raise `IndexError` before the
`ValueError` check can fire. -/
def parse_sheet_to_dict (sv : List (List String)) : Except PyError Table :=
  if sv.length < 2 then
    .error (.valueError "Sheet must have at least a header row and one data row.")
  else
    match sv.headD [] with
    | [] => .error .indexError
    | c :: _ =>
      if pyLower (pyStrip c) = "id" then .ok (parseRows (sv.headD []) sv.tail [])
      else .error (.valueError "The first header column must be 'id'.")

/-- Trimmed first cell of a row, `""` for an empty row. -/
def rowId (r : List String) : String :=
  match r with
  | [] => ""
  | c :: _ => pyStrip c

/-- A data row is kept by the parser iff its trimmed first cell is nonempty. -/
def keptB (r : List String) : Bool := rowId r != ""

/-! ### The merge loop of `sync_localizations` (main.py lines 44-57)

For one language, the body of the `for lang in language_codes` loop: load the
existing flat mapping, set `arb_data[trans_id] = translations[lang]` for every
sheet id that has a value for this language, count the updates, serialize. -/

/-- The update loop of `sync_localizations`, accumulating the mapping and the
`updated_keys` counter. -/
def mergeArbGo (lang : String) : Table → LangMap × Nat → LangMap × Nat
  | [], acc => acc
  | p :: rest, acc =>
    match alGet p.2 lang with
    | some v => mergeArbGo lang rest (alSet acc.1 p.1 v, acc.2 + 1)
    | none => mergeArbGo lang rest acc

/-- One merge-write of the sheet table into a resource file's flat mapping:
returns the final mapping and the reported updated-key count. -/
def mergeArb (arb_data : LangMap) (sheet_dict : Table) (lang : String) : LangMap × Nat :=
  mergeArbGo lang sheet_dict (arb_data, 0)

/-- Just the mapping part of the merge loop (used to factor proofs). -/
def mergeVals (lang : String) : Table → LangMap → LangMap
  | [], arb => arb
  | p :: rest, arb =>
    match alGet p.2 lang with
    | some v => mergeVals lang rest (alSet arb p.1 v)
    | none => mergeVals lang rest arb

/-- The number of sheet ids carrying a value for `lang` (the reported count). -/
def countLang (lang : String) (dict : Table) : Nat :=
  (dict.filter (fun p => (alGet p.2 lang).isSome)).length

/-! ### `json.dumps(..., ensure_ascii=False, indent=2)` -/

/-- Lower-case hex digit. -/
def hexDigit (n : Nat) : Char :=
  if n < 10 then Char.ofNat (48 + n) else Char.ofNat (87 + n % 16)

/-- JSON escaping of one character, non-ASCII characters kept literally
(`ensure_ascii=False`). -/
def jsonEscChar (c : Char) : List Char :=
  if c = '"' then ['\\', '"']
  else if c = '\\' then ['\\', '\\']
  else if c = '\n' then ['\\', 'n']
  else if c = '\r' then ['\\', 'r']
  else if c = '\t' then ['\\', 't']
  else if c = '\x08' then ['\\', 'b']
  else if c = '\x0c' then ['\\', 'f']
  else if c.toNat < 32 then ['\\', 'u', '0', '0', hexDigit (c.toNat / 16), hexDigit (c.toNat % 16)]
  else [c]

/-- A JSON string literal. -/
def jsonQuote (s : String) : String :=
  ⟨'"' :: s.data.foldr (fun c acc => jsonEscChar c ++ acc) ['"']⟩

/-- Python `json.dumps(d, ensure_ascii=False, indent=2)` for a flat string mapping,
in insertion order. -/
def json_dumps (d : LangMap) : String :=
  match d with
  | [] => "\x7b\x7d"
  | _ :: _ =>
    "\x7b\n" ++
      String.intercalate ",\n" (d.map (fun p => "  " ++ jsonQuote p.1 ++ ": " ++ jsonQuote p.2)) ++
      "\n\x7d"

/-! ### `sorted` and the language-code union (`set` + `update`) -/

/-- Python `<=` on strings: lexicographic comparison by code points. -/
def lexLe : List Char → List Char → Bool
  | [], _ => true
  | _ :: _, [] => false
  | a :: as, b :: bs =>
    if a.toNat < b.toNat then true
    else if b.toNat < a.toNat then false
    else lexLe as bs

/-- String comparison used by `sorted`. -/
def strLe (a b : String) : Bool := lexLe a.data b.data

/-- Insertion into a sorted list of strings. -/
def insertSorted (x : String) : List String → List String
  | [] => [x]
  | y :: ys => if strLe x y then x :: y :: ys else y :: insertSorted x ys

/-- Python `sorted(...)` on a list of distinct strings. -/
def sortStrings (l : List String) : List String := l.foldr insertSorted []

/-- One step of `lang_codes.update(...)`: add the code if unseen. -/
def addLang (acc : List String) (l : String) : List String :=
  if l ∈ acc then acc else acc ++ [l]

/-- Accumulate the language codes of one id's translations. -/
def addLangs (acc : List String) (m : LangMap) : List String :=
  m.foldl (fun a q => addLang a q.1) acc

/-- The union of all language codes appearing in a table (`set` + `update`
over all values), in first-seen order. -/
def collectLangs (t : Table) : List String :=
  t.foldl (fun acc p => addLangs acc p.2) []

/-! ### `fill_sheet_from_localizations` (main.py lines 179-205) -/

/-- One sheet row: `[str_id]` then one appended cell per language code,
missing languages defaulting to `""`, newlines escaped. -/
def buildRow (lang_codes : List String) (str_id : String) (tr : LangMap) : List String :=
  lang_codes.foldl (fun row l => row ++ [pyEscape ((alGet tr l).getD "")]) [str_id]

/-- The grid written by init mode: header `["id"] + sorted(lang_codes)`, one
row per id in insertion order. -/
def fill_sheet_from_localizations (localizations : Table) : List (List String) :=
  let lang_codes := sortStrings (collectLangs localizations)
  let header := "id" :: lang_codes
  localizations.foldl (fun rows p => rows ++ [buildRow lang_codes p.1 p.2]) [header]

/-! ### `gather_localizations_from_arbs` (main.py lines 147-177) -/

/-- Process one `key, value` item of an ARB file: metadata keys (prefix `"@"`)
go to the metadata set, the rest into `localizations[key][language_code]`. -/
def gatherEntry (lang : String) (acc : Table × List String) (kv : String × String) :
    Table × List String :=
  if pyStartsWith kv.1 "@" then
    (acc.1, if kv.1 ∈ acc.2 then acc.2 else acc.2 ++ [kv.1])
  else
    match alGet acc.1 kv.1 with
    | some inner => (alSet acc.1 kv.1 (alSet inner lang kv.2), acc.2)
    | none => (acc.1 ++ [(kv.1, [(lang, kv.2)])], acc.2)

/-- Process one directory entry: only `app_*.arb` files, language code taken
between the first `"_"` and the following `"."`. -/
def gatherFile (acc : Table × List String) (file : String × LangMap) : Table × List String :=
  if pyStartsWith file.1 "app_" && pyEndsWith file.1 ".arb" then
    let parts := splitChar '_' file.1.data
    if parts.length < 2 then acc
    else
      let language_code : String := ⟨(splitChar '.' (parts.getD 1 [])).headD []⟩
      file.2.foldl (gatherEntry language_code) acc
  else acc

/-- Function `gather_localizations_from_arbs`, over the directory listing modelled as a
list of (filename, parsed flat JSON content) in scan order. -/
def gather_localizations_from_arbs (files : List (String × LangMap)) : Table × List String :=
  files.foldl gatherFile ([], [])

/-! ### `push_values_to_sheet` (main.py lines 94-144) -/

/-- The merge loop of push mode: ids absent from the existing sheet dict are
appended (with their full translations), present ids are left alone;
`new_count` counts the additions. -/
def pushMergeGo : Table → Nat → Table → Table × Nat
  | merged, n, [] => (merged, n)
  | merged, n, p :: rest =>
    if (alGet merged p.1).isSome then pushMergeGo merged n rest
    else pushMergeGo (merged ++ [p]) (n + 1) rest

/-- Function `push_values_to_sheet`, returning the grid written back (clear then bulk
write) and the reported `new_count`. On an empty sheet a header is synthesized
from the sorted union of resource language codes; otherwise the existing grid
is parsed and its header reused verbatim, `lang_codes = header[1:]`. -/
def push_values_to_sheet (existing_data : List (List String)) (localizations : Table) :
    Except PyError (List (List String) × Nat) :=
  match existing_data with
  | [] =>
    let lang_codes := sortStrings (collectLangs localizations)
    let header := "id" :: lang_codes
    let mn := pushMergeGo [] 0 localizations
    .ok (mn.1.foldl (fun rows p => rows ++ [buildRow lang_codes p.1 p.2]) [header], mn.2)
  | _ :: _ =>
    match parse_sheet_to_dict existing_data with
    | .error e => .error e
    | .ok d =>
      let header := existing_data.headD []
      let mn := pushMergeGo d 0 localizations
      .ok (mn.1.foldl (fun rows p => rows ++ [buildRow header.tail p.1 p.2]) [header], mn.2)

/-! ### Spec-side notions used to state the claims -/

/-- Lookup through both table levels; `some none` distinguishes "id present,
language absent" from "id absent" (`none`). -/
def tblLookup (t : Table) (k l : String) : Option (Option String) :=
  (alGet t k).map (fun m => alGet m l)

/-- Two tables are the same Python value (`==` on nested dicts): same lookup
results at both levels. -/
def tablesEquiv (t₁ t₂ : Table) : Prop :=
  ∀ k l, tblLookup t₁ k l = tblLookup t₂ k l

/-- Newline-escaping normalization of one value: what survives a write to the
sheet followed by a read back. -/
def normValue (s : String) : String := pyUnescape (pyEscape s)

/-- Newline-escaping normalization of a whole table. -/
def normalizeTable (t : Table) : Table :=
  t.map (fun p => (p.1, p.2.map (fun q => (q.1, normValue q.2))))

/-- The per-row language mapping written out as plain pairs: one entry per
header cell (trimmed), with the row cell at the same position (padded with
`""`), unescaped. Equals `rowLangs` when the trimmed header cells are
distinct. -/
def rowPairs : List String → List String → LangMap
  | [], _ => []
  | h :: hs, rv => (pyStrip h, pyUnescape (rv.headD "")) :: rowPairs hs rv.tail

/-! ### Lemmas about the string primitives and folds -/

theorem stringMkData (s : String) : String.mk s.data = s := by
  cases s
  rfl

theorem unescapeNl_cons (c : Char) (rest : List Char)
    (h : ∀ r, ¬(c = '\\' ∧ rest = 'n' :: r)) :
    unescapeNl (c :: rest) = c :: unescapeNl rest := by
  rw [unescapeNl.eq_def]
  split
  · next heq => exact absurd heq (by simp)
  · next r heq =>
    injection heq with h1 h2
    exact absurd ⟨h1, h2⟩ (h r)
  · next c' rest' hne heq =>
    injection heq with h1 h2
    rw [h1, h2]

theorem escapeNl_cons (c : Char) (rest : List Char) (h : c ≠ '\n') :
    escapeNl (c :: rest) = c :: escapeNl rest := by
  rw [escapeNl.eq_def]
  split
  · next heq => exact absurd heq (by simp)
  · next r heq =>
    injection heq with h1 h2
    exact absurd h1 h
  · next c' rest' hne heq =>
    injection heq with h1 h2
    rw [h1, h2]

theorem escapeNl_unescapeNl (l : List Char) (h : '\n' ∉ l) :
    escapeNl (unescapeNl l) = l := by
  induction l using unescapeNl.induct with
  | case1 => rfl
  | case2 rest ih =>
    simp at h
    simp [unescapeNl, escapeNl, ih h]
  | case3 c rest hne ih =>
    simp at h
    rw [unescapeNl_cons c rest (fun r hc => hne r hc.1 hc.2),
      escapeNl_cons c _ (Ne.symm h.1), ih h.2]

theorem foldl_push {α β : Type} (f : α → β) (l : List α) (init : List β) :
    l.foldl (fun acc x => acc ++ [f x]) init = init ++ l.map f := by
  induction l generalizing init with
  | nil => simp
  | cons x xs ih => simp [List.foldl_cons, ih]

theorem perm_insertSorted (x : String) (l : List String) :
    List.Perm (insertSorted x l) (x :: l) := by
  induction l with
  | nil => exact List.Perm.refl _
  | cons y ys ih =>
    by_cases h : strLe x y
    · simp [insertSorted, h]
    · simp only [insertSorted, h, if_neg, Bool.not_eq_true]
      exact (ih.cons y).trans (List.Perm.swap x y ys)

theorem perm_sortStrings (l : List String) : List.Perm (sortStrings l) l := by
  induction l with
  | nil => exact List.Perm.refl _
  | cons x xs ih =>
    have : sortStrings (x :: xs) = insertSorted x (sortStrings xs) := rfl
    rw [this]
    exact (perm_insertSorted x _).trans (ih.cons x)

theorem mem_sortStrings (l : List String) (x : String) : x ∈ sortStrings l ↔ x ∈ l :=
  (perm_sortStrings l).mem_iff

theorem nodup_sortStrings (l : List String) (h : l.Nodup) : (sortStrings l).Nodup :=
  ((perm_sortStrings l).nodup_iff).mpr h

theorem mem_addLang (acc : List String) (l x : String) :
    x ∈ addLang acc l ↔ x ∈ acc ∨ x = l := by
  by_cases h : l ∈ acc
  · simp [addLang, h]
    intro hx
    exact hx ▸ h
  · simp [addLang, h]

theorem nodup_addLang (acc : List String) (l : String) (h : acc.Nodup) :
    (addLang acc l).Nodup := by
  by_cases hm : l ∈ acc
  · simpa [addLang, hm] using h
  · simp [addLang, hm, List.Nodup.append h (List.nodup_singleton l)
      (by simpa [List.disjoint_singleton] using hm)]

theorem mem_addLangs (m : LangMap) (acc : List String) (x : String) :
    x ∈ addLangs acc m ↔ x ∈ acc ∨ ∃ q ∈ m, q.1 = x := by
  induction m generalizing acc with
  | nil => simp [addLangs]
  | cons q qs ih =>
    have : addLangs acc (q :: qs) = addLangs (addLang acc q.1) qs := rfl
    rw [this, ih, mem_addLang]
    constructor
    · rintro ((h | h) | h)
      · exact Or.inl h
      · exact Or.inr ⟨q, by simp [h]⟩
      · rcases h with ⟨p, hp, hpx⟩
        exact Or.inr ⟨p, by simp [hp], hpx⟩
    · rintro (h | ⟨p, hp, hpx⟩)
      · exact Or.inl (Or.inl h)
      · rcases List.mem_cons.mp hp with h' | h'
        · exact Or.inl (Or.inr (h' ▸ hpx ▸ rfl))
        · exact Or.inr ⟨p, h', hpx⟩

theorem nodup_addLangs (m : LangMap) (acc : List String) (h : acc.Nodup) :
    (addLangs acc m).Nodup := by
  induction m generalizing acc with
  | nil => simpa [addLangs] using h
  | cons q qs ih =>
    have : addLangs acc (q :: qs) = addLangs (addLang acc q.1) qs := rfl
    rw [this]
    exact ih _ (nodup_addLang acc q.1 h)

theorem mem_collectLangsAux (t : Table) (acc : List String) (x : String) :
    x ∈ t.foldl (fun a p => addLangs a p.2) acc ↔ x ∈ acc ∨ ∃ p ∈ t, ∃ q ∈ p.2, q.1 = x := by
  induction t generalizing acc with
  | nil => simp
  | cons p ps ih =>
    rw [List.foldl_cons, ih, mem_addLangs]
    constructor
    · rintro ((h | ⟨q, hq, hqx⟩) | ⟨r, hr, hrr⟩)
      · exact Or.inl h
      · exact Or.inr ⟨p, by simp, q, hq, hqx⟩
      · rcases hrr with ⟨q, hq, hqx⟩
        exact Or.inr ⟨r, by simp [hr], q, hq, hqx⟩
    · rintro (h | ⟨r, hr, q, hq, hqx⟩)
      · exact Or.inl (Or.inl h)
      · rcases List.mem_cons.mp hr with h' | h'
        · exact Or.inl (Or.inr ⟨q, h' ▸ hq, hqx⟩)
        · exact Or.inr ⟨r, h', q, hq, hqx⟩

theorem mem_collectLangs (t : Table) (x : String) :
    x ∈ collectLangs t ↔ ∃ p ∈ t, ∃ q ∈ p.2, q.1 = x := by
  simpa [collectLangs] using mem_collectLangsAux t [] x

theorem nodup_collectLangs (t : Table) : (collectLangs t).Nodup := by
  have : ∀ acc : List String, acc.Nodup → (t.foldl (fun a p => addLangs a p.2) acc).Nodup := by
    induction t with
    | nil => intro acc h; simpa using h
    | cons p ps ih =>
      intro acc h
      rw [List.foldl_cons]
      exact ih _ (nodup_addLangs p.2 acc h)
  exact this [] List.nodup_nil

/-! ### Lemmas about ordered association lists -/

theorem alGet_alSet_self {α : Type} (l : List (String × α)) (k : String) (v : α) :
    alGet (alSet l k v) k = some v := by
  induction l with
  | nil => simp [alSet, alGet]
  | cons p rest ih =>
    obtain ⟨k', v'⟩ := p
    by_cases h : k' = k <;> simp [alSet, alGet, h, ih]

theorem alGet_alSet_ne {α : Type} (l : List (String × α)) (k k' : String) (v : α)
    (h : k' ≠ k) : alGet (alSet l k v) k' = alGet l k' := by
  induction l with
  | nil => simp [alSet, alGet, Ne.symm h]
  | cons p rest ih =>
    obtain ⟨q, w⟩ := p
    by_cases hq : q = k
    · subst hq
      simp [alSet, alGet, Ne.symm h]
    · rw [show alSet ((q, w) :: rest) k v = (q, w) :: alSet rest k v by simp [alSet, hq]]
      by_cases hq' : q = k' <;> simp [alGet, hq', ih]

theorem alSet_of_get_none {α : Type} (l : List (String × α)) (k : String) (v : α)
    (h : alGet l k = none) : alSet l k v = l ++ [(k, v)] := by
  induction l with
  | nil => simp [alSet]
  | cons p rest ih =>
    obtain ⟨q, w⟩ := p
    by_cases hq : q = k
    · simp [alGet, hq] at h
    · simp [alGet, hq] at h
      simp [alSet, hq, ih h]

theorem alSet_alSet_self {α : Type} (l : List (String × α)) (k : String) (v : α) :
    alSet (alSet l k v) k v = alSet l k v := by
  induction l with
  | nil => simp [alSet]
  | cons p rest ih =>
    obtain ⟨q, w⟩ := p
    by_cases hq : q = k <;> simp [alSet, hq, ih]

theorem alGet_isSome_alSet {α : Type} (l : List (String × α)) (k k' : String) (v : α) :
    (alGet (alSet l k v) k').isSome = (k' = k || (alGet l k').isSome) := by
  by_cases h : k' = k
  · subst h
    simp [alGet_alSet_self]
  · simp [alGet_alSet_ne l k k' v h, h]

theorem alSet_comm_of_present {α : Type} (l : List (String × α)) (k k' : String) (v w : α)
    (hp : (alGet l k).isSome = true) (hne : k ≠ k') :
    alSet (alSet l k v) k' w = alSet (alSet l k' w) k v := by
  induction l with
  | nil => simp [alGet] at hp
  | cons p rest ih =>
    obtain ⟨q, u⟩ := p
    by_cases hq : q = k
    · subst hq
      simp [alSet, hne]
    · by_cases hq' : q = k'
      · subst hq'
        simp [alSet, Ne.symm hne, hq]
      · simp [alGet, hq] at hp
        simp [alSet, hq, hq', ih hp]

theorem alGet_mem {α : Type} (l : List (String × α)) (k : String) (v : α)
    (h : alGet l k = some v) : (k, v) ∈ l := by
  induction l with
  | nil => simp [alGet] at h
  | cons p rest ih =>
    obtain ⟨q, w⟩ := p
    by_cases hq : q = k
    · subst hq
      simp [alGet] at h
      simp [h]
    · simp [alGet, hq] at h
      simp [ih h]

theorem alGet_eq_none_iff {α : Type} (l : List (String × α)) (k : String) :
    alGet l k = none ↔ ∀ p ∈ l, p.1 ≠ k := by
  induction l with
  | nil => simp [alGet]
  | cons p rest ih =>
    obtain ⟨q, w⟩ := p
    by_cases hq : q = k <;> simp [alGet, hq, ih]

theorem alGet_map {α β : Type} (l : List (String × α)) (f : α → β) (k : String) :
    alGet (l.map (fun p => (p.1, f p.2))) k = (alGet l k).map f := by
  induction l with
  | nil => simp [alGet]
  | cons p rest ih =>
    obtain ⟨q, w⟩ := p
    by_cases hq : q = k <;> simp [alGet, hq, ih]

theorem alGet_keyed_map_mem {α : Type} (L : List String) (g : String → α) (k : String)
    (hnd : L.Nodup) (hk : k ∈ L) :
    alGet (L.map (fun x => (x, g x))) k = some (g k) := by
  induction L with
  | nil => simp at hk
  | cons x xs ih =>
    rcases List.mem_cons.mp hk with h | h
    · subst h
      simp [alGet]
    · have hx : x ≠ k := by
        rintro rfl
        exact (List.nodup_cons.mp hnd).1 h
      simp [alGet, hx, ih (List.nodup_cons.mp hnd).2 h]

theorem alGet_keyed_map_not_mem {α : Type} (L : List String) (g : String → α) (k : String)
    (hk : k ∉ L) :
    alGet (L.map (fun x => (x, g x))) k = none := by
  induction L with
  | nil => simp [alGet]
  | cons x xs ih =>
    have hx : x ≠ k := fun hc => hk (hc ▸ List.mem_cons_self x xs)
    simp at hk
    simp [alGet, hx, ih hk.2]

theorem alGet_append_of_some {α : Type} (l m : List (String × α)) (k : String) (v : α)
    (h : alGet l k = some v) : alGet (l ++ m) k = some v := by
  induction l with
  | nil => simp [alGet] at h
  | cons p rest ih =>
    obtain ⟨q, w⟩ := p
    by_cases hq : q = k <;> simp_all [alGet]

theorem alGet_append_of_none {α : Type} (l m : List (String × α)) (k : String)
    (h : alGet l k = none) : alGet (l ++ m) k = alGet m k := by
  induction l with
  | nil => simp
  | cons p rest ih =>
    obtain ⟨q, w⟩ := p
    by_cases hq : q = k <;> simp_all [alGet]

theorem mem_alSet {α : Type} (l : List (String × α)) (k : String) (v : α) (p : String × α)
    (h : p ∈ alSet l k v) : p ∈ l ∨ p.2 = v := by
  induction l with
  | nil =>
    simp [alSet] at h
    simp [h]
  | cons q rest ih =>
    obtain ⟨qk, qv⟩ := q
    by_cases hq : qk = k
    · simp [alSet, hq] at h
      rcases h with h | h
      · simp [h]
      · simp [h]
    · simp [alSet, hq] at h
      rcases h with h | h
      · simp [h]
      · rcases ih h with h' | h'
        · simp [h']
        · simp [h']

theorem alSet_of_get_same {α : Type} (l : List (String × α)) (k : String) (v : α)
    (h : alGet l k = some v) : alSet l k v = l := by
  induction l with
  | nil => simp [alGet] at h
  | cons p rest ih =>
    obtain ⟨q, w⟩ := p
    by_cases hq : q = k
    · subst hq
      simp [alGet] at h
      simp [alSet, h]
    · simp [alGet, hq] at h
      simp [alSet, hq, ih h]

theorem pyEscape_pyUnescape (s : String) (h : '\n' ∉ s.data) :
    pyEscape (pyUnescape s) = s := by
  unfold pyEscape pyUnescape
  rw [show (String.mk (unescapeNl s.data)).data = unescapeNl s.data from rfl,
    escapeNl_unescapeNl s.data h, stringMkData]

/-! ### Lemmas about the parser's row loop -/

theorem parseRows_nil (hd : List String) (d : Table) : parseRows hd [] d = d := rfl

theorem parseRows_cons_empty (hd : List String) (rest : List (List String)) (d : Table) :
    parseRows hd ([] :: rest) d = parseRows hd rest d := rfl

theorem parseRows_cons_blank (hd : List String) (c : String) (cs : List String)
    (rest : List (List String)) (d : Table) (h : pyStrip c = "") :
    parseRows hd ((c :: cs) :: rest) d = parseRows hd rest d := by
  simp [parseRows, h]

theorem parseRows_cons_kept (hd : List String) (c : String) (cs : List String)
    (rest : List (List String)) (d : Table) (h : pyStrip c ≠ "") :
    parseRows hd ((c :: cs) :: rest) d =
      parseRows hd rest (alSet d (pyStrip c) (rowLangs hd (c :: cs))) := by
  simp [parseRows, h]

theorem parseRows_get_noMatch (hd : List String) (rows : List (List String)) (d : Table)
    (k : String) (h : ∀ r ∈ rows, rowId r ≠ k ∨ rowId r = "") :
    alGet (parseRows hd rows d) k = alGet d k := by
  induction rows generalizing d with
  | nil => rfl
  | cons r rest ih =>
    have hrest : ∀ r' ∈ rest, rowId r' ≠ k ∨ rowId r' = "" :=
      fun r' hr' => h r' (List.mem_cons_of_mem r hr')
    rcases r with _ | ⟨c, cs⟩
    · rw [parseRows_cons_empty]
      exact ih _ hrest
    · by_cases hb : pyStrip c = ""
      · rw [parseRows_cons_blank _ _ _ _ _ hb]
        exact ih _ hrest
      · rw [parseRows_cons_kept _ _ _ _ _ hb]
        have hk : pyStrip c ≠ k := by
          rcases h (c :: cs) (by simp) with h' | h'
          · simpa [rowId] using h'
          · exact absurd (by simpa [rowId] using h') hb
        rw [ih _ hrest, alGet_alSet_ne d (pyStrip c) k _ (Ne.symm hk)]

theorem parseRows_get_last (hd : List String) (pre post : List (List String)) (c : String)
    (cs : List String) (d : Table) (h : pyStrip c ≠ "")
    (hpost : ∀ r ∈ post, rowId r ≠ pyStrip c ∨ rowId r = "") :
    alGet (parseRows hd (pre ++ (c :: cs) :: post) d) (pyStrip c) =
      some (rowLangs hd (c :: cs)) := by
  induction pre generalizing d with
  | nil =>
    rw [List.nil_append, parseRows_cons_kept _ _ _ _ _ h,
      parseRows_get_noMatch _ _ _ _ hpost, alGet_alSet_self]
  | cons q qs ih =>
    rcases q with _ | ⟨qc, qcs⟩
    · rw [List.cons_append, parseRows_cons_empty]
      exact ih d
    · by_cases hq : pyStrip qc = ""
      · rw [List.cons_append, parseRows_cons_blank _ _ _ _ _ hq]
        exact ih d
      · rw [List.cons_append, parseRows_cons_kept _ _ _ _ _ hq]
        exact ih _

theorem parseRows_skip (hd : List String) (pre post : List (List String)) (r : List String)
    (d : Table) (h : keptB r = false) :
    parseRows hd (pre ++ r :: post) d = parseRows hd (pre ++ post) d := by
  induction pre generalizing d with
  | nil =>
    rcases r with _ | ⟨c, cs⟩
    · rw [List.nil_append, parseRows_cons_empty, List.nil_append]
    · have hb : pyStrip c = "" := by simpa [keptB, rowId] using h
      rw [List.nil_append, parseRows_cons_blank _ _ _ _ _ hb, List.nil_append]
  | cons q qs ih =>
    rcases q with _ | ⟨qc, qcs⟩
    · rw [List.cons_append, parseRows_cons_empty, List.cons_append, parseRows_cons_empty]
      exact ih d
    · by_cases hq : pyStrip qc = ""
      · rw [List.cons_append, parseRows_cons_blank _ _ _ _ _ hq, List.cons_append,
          parseRows_cons_blank _ _ _ _ _ hq]
        exact ih d
      · rw [List.cons_append, parseRows_cons_kept _ _ _ _ _ hq, List.cons_append,
          parseRows_cons_kept _ _ _ _ _ hq]
        exact ih _

theorem parseRows_fresh (hd : List String) (rows : List (List String)) (d : Table)
    (hnd : ((rows.filter keptB).map rowId).Nodup)
    (hdisj : ∀ r ∈ rows, keptB r = true → alGet d (rowId r) = none) :
    parseRows hd rows d = d ++ (rows.filter keptB).map (fun r => (rowId r, rowLangs hd r)) := by
  induction rows generalizing d with
  | nil => simp [parseRows_nil]
  | cons r rest ih =>
    rcases r with _ | ⟨c, cs⟩
    · have hk : keptB ([] : List String) = false := by simp [keptB, rowId]
      rw [parseRows_cons_empty, List.filter_cons, if_neg (by simp [hk])]
      exact ih d (by rwa [List.filter_cons, if_neg (by simp [hk])] at hnd)
        (fun r' hr' => hdisj r' (List.mem_cons_of_mem _ hr'))
    · by_cases hb : pyStrip c = ""
      · have hk : keptB (c :: cs) = false := by simp [keptB, rowId, hb]
        rw [parseRows_cons_blank _ _ _ _ _ hb, List.filter_cons, if_neg (by simp [hk])]
        exact ih d (by rwa [List.filter_cons, if_neg (by simp [hk])] at hnd)
          (fun r' hr' => hdisj r' (List.mem_cons_of_mem _ hr'))
      · have hk : keptB (c :: cs) = true := by simp [keptB, rowId, hb]
        have hid : rowId (c :: cs) = pyStrip c := rfl
        have hget : alGet d (pyStrip c) = none := hid ▸ hdisj (c :: cs) (by simp) hk
        rw [parseRows_cons_kept _ _ _ _ _ hb, alSet_of_get_none d _ _ hget]
        rw [List.filter_cons, if_pos (by simp [hk])] at hnd ⊢
        rw [List.map_cons, List.nodup_cons] at hnd
        have hdisj' : ∀ r' ∈ rest, keptB r' = true →
            alGet (d ++ [(pyStrip c, rowLangs hd (c :: cs))]) (rowId r') = none := by
          intro r' hr' hk'
          have hne : rowId r' ≠ pyStrip c := by
            intro hc
            exact hnd.1 (hid ▸ hc ▸ List.mem_map_of_mem rowId
              (List.mem_filter.mpr ⟨hr', hk'⟩))
          rw [alGet_append_of_none _ _ _ (hdisj r' (List.mem_cons_of_mem _ hr') hk')]
          simp [alGet, Ne.symm hne]
        rw [ih _ hnd.2 hdisj']
        simp [hid]

theorem mem_parseRows (hd : List String) (rows : List (List String)) (d : Table)
    (p : String × LangMap) (h : p ∈ parseRows hd rows d) :
    p ∈ d ∨ ∃ r ∈ rows, p.2 = rowLangs hd r := by
  induction rows generalizing d with
  | nil => exact Or.inl h
  | cons r rest ih =>
    rcases r with _ | ⟨c, cs⟩
    · rw [parseRows_cons_empty] at h
      rcases ih _ h with h' | ⟨r', hr', he⟩
      · exact Or.inl h'
      · exact Or.inr ⟨r', List.mem_cons_of_mem _ hr', he⟩
    · by_cases hb : pyStrip c = ""
      · rw [parseRows_cons_blank _ _ _ _ _ hb] at h
        rcases ih _ h with h' | ⟨r', hr', he⟩
        · exact Or.inl h'
        · exact Or.inr ⟨r', List.mem_cons_of_mem _ hr', he⟩
      · rw [parseRows_cons_kept _ _ _ _ _ hb] at h
        rcases ih _ h with h' | ⟨r', hr', he⟩
        · rcases mem_alSet _ _ _ _ h' with h'' | h''
          · exact Or.inl h''
          · exact Or.inr ⟨c :: cs, by simp, h''⟩
        · exact Or.inr ⟨r', List.mem_cons_of_mem _ hr', he⟩

/-! ### Lemmas about the per-row column loop -/

theorem rowLangsAux_eq (hs rv : List String) (acc : LangMap)
    (hnd : (hs.map pyStrip).Nodup)
    (hdisj : ∀ l ∈ hs.map pyStrip, alGet acc l = none) :
    rowLangsAux hs rv acc = acc ++ rowPairs hs rv := by
  induction hs generalizing rv acc with
  | nil => simp [rowLangsAux, rowPairs]
  | cons h hs' ih =>
    have hstep : rowLangsAux (h :: hs') rv acc =
        rowLangsAux hs' rv.tail (alSet acc (pyStrip h) (pyUnescape (rv.headD ""))) := rfl
    rw [hstep, alSet_of_get_none _ _ _ (hdisj _ (by simp))]
    rw [List.map_cons, List.nodup_cons] at hnd
    have hdisj' : ∀ l ∈ hs'.map pyStrip,
        alGet (acc ++ [(pyStrip h, pyUnescape (rv.headD ""))]) l = none := by
      intro l hl
      have hne : pyStrip h ≠ l := fun hc => hnd.1 (hc ▸ hl)
      rw [alGet_append_of_none _ _ _ (hdisj l (List.mem_cons_of_mem _ hl))]
      simp [alGet, hne]
    rw [ih rv.tail _ hnd.2 hdisj']
    simp [rowPairs]

theorem rowLangs_eq_rowPairs (hd : List String) (row : List String)
    (hnd : (hd.tail.map pyStrip).Nodup) :
    rowLangs hd row = rowPairs hd.tail row.tail := by
  rw [rowLangs, rowLangsAux_eq _ _ _ hnd (by simp [alGet])]
  rfl

theorem rowPairs_map (L : List String) (f : String → String) :
    rowPairs L (L.map f) = L.map (fun l => (pyStrip l, pyUnescape (f l))) := by
  induction L with
  | nil => rfl
  | cons h L' ih => simp [rowPairs, ih]

theorem rowRoundTrip (hs rv : List String)
    (hnd : hs.Nodup) (hinv : ∀ h ∈ hs, pyStrip h = h)
    (hlen : rv.length = hs.length) (hnl : ∀ cell ∈ rv, '\n' ∉ cell.data) :
    hs.map (fun l => pyEscape ((alGet (rowPairs hs rv) l).getD "")) = rv := by
  induction hs generalizing rv with
  | nil =>
    cases rv with
    | nil => rfl
    | cons v rv' => simp at hlen
  | cons h hs' ih =>
    cases rv with
    | nil => simp at hlen
    | cons v rv' =>
      have hh : pyStrip h = h := hinv h (by simp)
      have hrp : rowPairs (h :: hs') (v :: rv') = (h, pyUnescape v) :: rowPairs hs' rv' := by
        simp [rowPairs, hh]
      rw [List.map_cons, hrp]
      have hhead : pyEscape ((alGet ((h, pyUnescape v) :: rowPairs hs' rv') h).getD "") = v := by
        simp [alGet]
        exact pyEscape_pyUnescape v (hnl v (by simp))
      have htail : hs'.map
          (fun l => pyEscape ((alGet ((h, pyUnescape v) :: rowPairs hs' rv') l).getD "")) = rv' := by
        have hcong : ∀ l ∈ hs',
            pyEscape ((alGet ((h, pyUnescape v) :: rowPairs hs' rv') l).getD "") =
            pyEscape ((alGet (rowPairs hs' rv') l).getD "") := by
          intro l hl
          have hne : h ≠ l := fun hc => (List.nodup_cons.mp hnd).1 (hc ▸ hl)
          simp [alGet, hne]
        rw [List.map_congr_left hcong]
        exact ih rv' (List.nodup_cons.mp hnd).2 (fun x hx => hinv x (List.mem_cons_of_mem _ hx))
          (by simpa using hlen) (fun cell hc => hnl cell (List.mem_cons_of_mem _ hc))
      rw [hhead, htail]

/-! ### Lemmas about the sync merge loop -/

theorem mergeArbGo_eq (lang : String) (dict : Table) (arb : LangMap) (n : Nat) :
    mergeArbGo lang dict (arb, n) = (mergeVals lang dict arb, n + countLang lang dict) := by
  induction dict generalizing arb n with
  | nil => simp [mergeArbGo, mergeVals, countLang]
  | cons p rest ih =>
    rcases hv : alGet p.2 lang with _ | v
    · have hc : countLang lang (p :: rest) = countLang lang rest := by
        simp [countLang, List.filter_cons, hv]
      simp [mergeArbGo, mergeVals, hv, ih, hc]
    · have hc : countLang lang (p :: rest) = countLang lang rest + 1 := by
        simp [countLang, List.filter_cons, hv]
      simp [mergeArbGo, mergeVals, hv, ih, hc]
      omega

theorem mergeVals_get_skip (lang k : String) (dict : Table) (arb : LangMap)
    (h : ∀ p ∈ dict, p.1 = k → alGet p.2 lang = none) :
    alGet (mergeVals lang dict arb) k = alGet arb k := by
  induction dict generalizing arb with
  | nil => rfl
  | cons p rest ih =>
    have hrest : ∀ q ∈ rest, q.1 = k → alGet q.2 lang = none :=
      fun q hq => h q (List.mem_cons_of_mem _ hq)
    rcases hv : alGet p.2 lang with _ | v
    · simp only [mergeVals, hv]
      exact ih arb hrest
    · have hne : p.1 ≠ k := by
        intro hc
        rw [h p (by simp) hc] at hv
        cases hv
      simp only [mergeVals, hv]
      rw [ih _ hrest, alGet_alSet_ne _ _ _ _ (Ne.symm hne)]

theorem mergeVals_alSet_comm (lang k : String) (v : String) (dict : Table) (arb : LangMap)
    (hk : ∀ p ∈ dict, p.1 ≠ k) (hpres : (alGet arb k).isSome = true) :
    mergeVals lang dict (alSet arb k v) = alSet (mergeVals lang dict arb) k v := by
  induction dict generalizing arb with
  | nil => rfl
  | cons p rest ih =>
    have hrest : ∀ q ∈ rest, q.1 ≠ k := fun q hq => hk q (List.mem_cons_of_mem _ hq)
    rcases hv : alGet p.2 lang with _ | w
    · simp only [mergeVals, hv]
      exact ih arb hrest hpres
    · simp only [mergeVals, hv]
      have hne : p.1 ≠ k := hk p (by simp)
      rw [alSet_comm_of_present arb k p.1 v w hpres (Ne.symm hne)]
      exact ih (alSet arb p.1 w) hrest
        (by rw [alGet_isSome_alSet]; simp [hpres])

theorem mergeVals_idem (lang : String) (dict : Table) (arb : LangMap)
    (hnd : (dict.map Prod.fst).Nodup) :
    mergeVals lang dict (mergeVals lang dict arb) = mergeVals lang dict arb := by
  induction dict generalizing arb with
  | nil => rfl
  | cons p rest ih =>
    rw [List.map_cons, List.nodup_cons] at hnd
    have hknot : ∀ q ∈ rest, q.1 ≠ p.1 := by
      intro q hq hc
      exact hnd.1 (hc ▸ List.mem_map_of_mem Prod.fst hq)
    rcases hv : alGet p.2 lang with _ | w
    · simp only [mergeVals, hv]
      exact ih arb hnd.2
    · simp only [mergeVals, hv]
      have hgetX : alGet (mergeVals lang rest (alSet arb p.1 w)) p.1 = some w := by
        rw [mergeVals_get_skip lang p.1 rest _
          (fun q hq hc => absurd hc (hknot q hq)), alGet_alSet_self]
      rw [mergeVals_alSet_comm lang p.1 w rest _ hknot (by simp [hgetX]),
        ih _ hnd.2, alSet_of_get_same _ _ _ hgetX]

/-! ### Lemmas about the push merge loop -/

theorem pushMergeGo_append (locs : Table) (d : Table) (n : Nat) :
    ∃ ext m, pushMergeGo d n locs = (d ++ ext, m) := by
  induction locs generalizing d n with
  | nil => exact ⟨[], n, by simp [pushMergeGo]⟩
  | cons p rest ih =>
    by_cases h : (alGet d p.1).isSome
    · have hstep : pushMergeGo d n (p :: rest) = pushMergeGo d n rest := by
        simp [pushMergeGo, h]
      rw [hstep]
      exact ih d n
    · have hstep : pushMergeGo d n (p :: rest) = pushMergeGo (d ++ [p]) (n + 1) rest := by
        simp [pushMergeGo, h]
      rw [hstep]
      rcases ih (d ++ [p]) (n + 1) with ⟨ext, m, he⟩
      exact ⟨[p] ++ ext, m, by rw [he, List.append_assoc]⟩

/-! ### Unfolding lemmas for the top-level functions -/

theorem parse_eq_ok (c : String) (hs : List String) (rows : List (List String))
    (hne : rows ≠ []) (hid : pyLower (pyStrip c) = "id") :
    parse_sheet_to_dict ((c :: hs) :: rows) = .ok (parseRows (c :: hs) rows []) := by
  simp [parse_sheet_to_dict, hid]
  cases rows with
  | nil => exact absurd rfl hne
  | cons r rs => simp

theorem buildRow_eq_map (lang_codes : List String) (str_id : String) (tr : LangMap) :
    buildRow lang_codes str_id tr =
      str_id :: lang_codes.map (fun l => pyEscape ((alGet tr l).getD "")) := by
  rw [buildRow, foldl_push]
  rfl

theorem fill_eq (t : Table) :
    fill_sheet_from_localizations t =
      ("id" :: sortStrings (collectLangs t)) ::
        t.map (fun p => buildRow (sortStrings (collectLangs t)) p.1 p.2) := by
  rw [fill_sheet_from_localizations]
  rw [foldl_push (fun p : String × LangMap => buildRow (sortStrings (collectLangs t)) p.1 p.2)]
  rfl

theorem rowLangsAux_isSome (hs rv : List String) (acc : LangMap) (l : String) :
    (alGet (rowLangsAux hs rv acc) l).isSome = true ↔
      l ∈ hs.map pyStrip ∨ (alGet acc l).isSome = true := by
  induction hs generalizing rv acc with
  | nil => simp [rowLangsAux]
  | cons h hs' ih =>
    have hstep : rowLangsAux (h :: hs') rv acc =
        rowLangsAux hs' rv.tail (alSet acc (pyStrip h) (pyUnescape (rv.headD ""))) := rfl
    rw [hstep, ih, alGet_isSome_alSet]
    simp only [List.map_cons, List.mem_cons, Bool.or_eq_true, decide_eq_true_eq]
    constructor
    · rintro (h' | (h' | h'))
      · exact Or.inl (Or.inr h')
      · exact Or.inl (Or.inl h')
      · exact Or.inr h'
    · rintro ((h' | h') | h')
      · exact Or.inr (Or.inl h')
      · exact Or.inl h'
      · exact Or.inr (Or.inr h')

theorem rowLangs_isSome (hd row : List String) (l : String) :
    (alGet (rowLangs hd row) l).isSome = true ↔ l ∈ hd.tail.map pyStrip := by
  rw [rowLangs, rowLangsAux_isSome]
  simp [alGet]

/-! ### The claims -/

/-- Claim C5, amended: the parser raises the `MalformedSheetError` message for
fewer than 2 rows, and for a nonempty header whose first cell
(trimmed, lower-cased) is not `"id"`; with at least 2 rows and an empty header
row it instead fails with an unguarded `IndexError`; with at least 2 rows and
a nonempty header whose first cell is `"id"` it returns a table. -/
theorem claim_C5_parser_error_conditions (sv : List (List String)) :
    (sv.length < 2 →
      parse_sheet_to_dict sv =
        .error (.valueError "Sheet must have at least a header row and one data row.")) ∧
    (2 ≤ sv.length → sv.headD [] = [] → parse_sheet_to_dict sv = .error .indexError) ∧
    (∀ c cs, 2 ≤ sv.length → sv.headD [] = c :: cs → pyLower (pyStrip c) ≠ "id" →
      parse_sheet_to_dict sv = .error (.valueError "The first header column must be 'id'.")) ∧
    (∀ c cs, 2 ≤ sv.length → sv.headD [] = c :: cs → pyLower (pyStrip c) = "id" →
      ∃ t, parse_sheet_to_dict sv = .ok t) := by
  refine ⟨?_, ?_, ?_, ?_⟩
  · intro h
    simp [parse_sheet_to_dict, h]
  · intro h hh
    unfold parse_sheet_to_dict
    rw [if_neg (Nat.not_lt.mpr h), hh]
  · intro c cs h hh hid
    unfold parse_sheet_to_dict
    rw [if_neg (Nat.not_lt.mpr h), hh]
    simp [hid]
  · intro c cs h hh hid
    refine ⟨parseRows (sv.headD []) sv.tail [], ?_⟩
    unfold parse_sheet_to_dict
    rw [if_neg (Nat.not_lt.mpr h), hh]
    simp [hid, hh]

theorem claim_C5_parser_error_conditions_witness :
    parse_sheet_to_dict [["id"]] =
      .error (.valueError "Sheet must have at least a header row and one data row.") ∧
    parse_sheet_to_dict [[], ["x"]] = .error .indexError ∧
    parse_sheet_to_dict [["name"], ["x"]] =
      .error (.valueError "The first header column must be 'id'.") ∧
    (∃ t, parse_sheet_to_dict [["id"], ["x"]] = .ok t) :=
  ⟨(claim_C5_parser_error_conditions [["id"]]).1 (by decide),
   (claim_C5_parser_error_conditions [[], ["x"]]).2.1 (by decide) rfl,
   (claim_C5_parser_error_conditions [["name"], ["x"]]).2.2.1 "name" [] (by decide) rfl (by decide),
   (claim_C5_parser_error_conditions [["id"], ["x"]]).2.2.2 "id" [] (by decide) rfl (by decide)⟩

/-- Counterexample to claim C5 as stated: the grid `[[], ["x"]]` has at least
2 rows and its header's first cell is certainly not "id" (the header is
empty), yet the parser raises `IndexError`, not the documented
`MalformedSheetError`, and returns no table. -/
theorem claim_C5_counterexample :
    parse_sheet_to_dict [[], ["x"]] = .error .indexError ∧
    PyError.indexError ≠ PyError.valueError "The first header column must be 'id'." ∧
    PyError.indexError ≠ PyError.valueError "Sheet must have at least a header row and one data row." := by
  decide

/-- Claim C6: a data row whose trimmed first cell is empty (or an empty row)
contributes no entry: deleting it from an accepted grid leaves the parse
result unchanged; and Scenario A parses as specified, dropping the blank-id
row. -/
theorem claim_C6_blank_rows_dropped :
    (∀ (c : String) (hs : List String) (pre post : List (List String)) (r : List String),
      pyLower (pyStrip c) = "id" → pre ++ post ≠ [] → keptB r = false →
      parse_sheet_to_dict ((c :: hs) :: (pre ++ r :: post)) =
        parse_sheet_to_dict ((c :: hs) :: (pre ++ post))) ∧
    parse_sheet_to_dict
        [["id", "en", "pl"], ["hello", "Hello", "Witaj"], ["  ", "x", "y"], ["bye", "Bye", "Cześć"]] =
      .ok [("hello", [("en", "Hello"), ("pl", "Witaj")]),
           ("bye", [("en", "Bye"), ("pl", "Cześć")])] := by
  constructor
  · intro c hs pre post r hid hne hk
    rw [parse_eq_ok c hs _ (by simp) hid, parse_eq_ok c hs _ hne hid,
      parseRows_skip _ _ _ _ _ hk]
  · decide

theorem claim_C6_blank_rows_dropped_witness :
    pyLower (pyStrip "id") = "id" ∧ keptB ["  ", "x", "y"] = false ∧
    parse_sheet_to_dict
        [["id", "en", "pl"], ["hello", "Hello", "Witaj"], ["  ", "x", "y"], ["bye", "Bye", "Cześć"]] =
      parse_sheet_to_dict [["id", "en", "pl"], ["hello", "Hello", "Witaj"], ["bye", "Bye", "Cześć"]] :=
  ⟨by decide, by decide,
    claim_C6_blank_rows_dropped.1 "id" ["en", "pl"] [["hello", "Hello", "Witaj"]]
      [["bye", "Bye", "Cześć"]] ["  ", "x", "y"] (by decide) (by decide) (by decide)⟩

/-- Claim C7: when several data rows share the same trimmed id, parsing
succeeds and the table maps that id to the language values of the last such
row. -/
theorem claim_C7_last_row_wins (c : String) (hs : List String) (pre post : List (List String))
    (rc : String) (rr : List String)
    (hid : pyLower (pyStrip c) = "id")
    (hk : pyStrip rc ≠ "")
    (_hdup : ∃ r' ∈ pre, rowId r' = pyStrip rc)
    (hpost : ∀ r' ∈ post, rowId r' ≠ pyStrip rc ∨ rowId r' = "") :
    ∃ t, parse_sheet_to_dict ((c :: hs) :: (pre ++ (rc :: rr) :: post)) = .ok t ∧
      alGet t (pyStrip rc) = some (rowLangs (c :: hs) (rc :: rr)) :=
  ⟨_, parse_eq_ok c hs _ (by simp) hid,
    parseRows_get_last (c :: hs) pre post rc rr [] hk hpost⟩

theorem claim_C7_last_row_wins_witness :
    pyStrip "a" ≠ "" ∧ rowId ["a", "1"] = pyStrip "a" ∧
    (∃ t, parse_sheet_to_dict [["id", "en"], ["a", "1"], ["a", "2"]] = .ok t ∧
      alGet t (pyStrip "a") = some (rowLangs ["id", "en"] ["a", "2"])) :=
  ⟨by decide, rfl,
    claim_C7_last_row_wins "id" ["en"] [["a", "1"]] [] "a" ["2"] (by decide) (by decide)
      ⟨["a", "1"], by simp, rfl⟩ (by simp)⟩

/-- Claim C8: init-mode encoding produces the header `["id"] + sorted union
of language codes` and one row per id in insertion (first-seen) order, with
missing languages as `""`; and Scenario C's two ARB files gather and encode
to exactly the specified grid. -/
theorem claim_C8_init_encoding :
    (∀ t : Table, fill_sheet_from_localizations t =
      ("id" :: sortStrings (collectLangs t)) ::
        t.map (fun p => p.1 :: (sortStrings (collectLangs t)).map
          (fun l => pyEscape ((alGet p.2 l).getD "")))) ∧
    gather_localizations_from_arbs
        [("app_en.arb", [("greet", "Hi")]),
         ("app_pl.arb", [("greet", "Witaj"), ("farewell", "Do widzenia")])] =
      ([("greet", [("en", "Hi"), ("pl", "Witaj")]), ("farewell", [("pl", "Do widzenia")])], []) ∧
    fill_sheet_from_localizations
        [("greet", [("en", "Hi"), ("pl", "Witaj")]), ("farewell", [("pl", "Do widzenia")])] =
      [["id", "en", "pl"], ["greet", "Hi", "Witaj"], ["farewell", "", "Do widzenia"]] := by
  refine ⟨?_, by decide, by decide⟩
  intro t
  rw [fill_eq]
  congr 1
  apply List.map_congr_left
  intro p hp
  rw [buildRow_eq_map]

/-- Claim C9: in every parsed table, each id's inner mapping has a value for
a language `l` exactly when `l` is one of the trimmed header cells at
indices >= 1 (ragged rows having been padded with `""`). -/
theorem claim_C9_inner_keys (sv : List (List String)) (t : Table)
    (h : parse_sheet_to_dict sv = .ok t) :
    ∀ p ∈ t, ∀ l, (alGet p.2 l).isSome = true ↔ l ∈ (sv.headD []).tail.map pyStrip := by
  intro p hp l
  rw [parse_sheet_to_dict] at h
  by_cases hlen : sv.length < 2
  · simp [hlen] at h
  · simp only [hlen, if_false] at h
    rcases hh : sv.headD [] with _ | ⟨c, cs⟩
    · rw [hh] at h
      simp at h
    · rw [hh] at h
      by_cases hid : pyLower (pyStrip c) = "id"
      · simp only [hid, if_true] at h
        have ht : t = parseRows (c :: cs) sv.tail [] := by
          cases h
          rfl
        subst ht
        rcases mem_parseRows _ _ _ p hp with h' | ⟨r, _, he⟩
        · simp at h'
        · rw [he]
          exact rowLangs_isSome (c :: cs) r l
      · simp [hid] at h

theorem claim_C9_inner_keys_witness :
    parse_sheet_to_dict [["id", "en"], ["hello", "Hello"]] =
      .ok [("hello", [("en", "Hello")])] ∧
    ((alGet (("hello", [("en", "Hello")]) : String × LangMap).2 "en").isSome = true ↔
      "en" ∈ (([["id", "en"], ["hello", "Hello"]] : List (List String)).headD []).tail.map pyStrip) :=
  ⟨by decide,
    claim_C9_inner_keys [["id", "en"], ["hello", "Hello"]] [("hello", [("en", "Hello")])]
      (by decide) ("hello", [("en", "Hello")]) (by simp) "en"⟩

/-- Claim C10: a grid with at least two rows whose header row is empty makes
the parser fail with the unguarded positional-indexing error, not with either
`MalformedSheetError` message. -/
theorem claim_C10_empty_header_index_error (r : List String) (rest : List (List String)) :
    parse_sheet_to_dict ([] :: r :: rest) = .error .indexError ∧
    PyError.indexError ≠ PyError.valueError "Sheet must have at least a header row and one data row." ∧
    PyError.indexError ≠ PyError.valueError "The first header column must be 'id'." := by
  refine ⟨?_, by decide, by decide⟩
  simp [parse_sheet_to_dict]

/-- Claim C3: merging the same sheet table into a resource mapping twice in
succession yields the same final mapping (hence the same serialized file
content) and the same reported updated-key count both times; the table, being
a Python dict, has distinct ids. -/
theorem claim_C3_merge_idempotent (arb : LangMap) (dict : Table) (lang : String)
    (hnd : (dict.map Prod.fst).Nodup) :
    mergeArb (mergeArb arb dict lang).1 dict lang = mergeArb arb dict lang ∧
    json_dumps (mergeArb (mergeArb arb dict lang).1 dict lang).1 =
      json_dumps (mergeArb arb dict lang).1 := by
  have h1 : mergeArb arb dict lang = (mergeVals lang dict arb, countLang lang dict) := by
    rw [mergeArb, mergeArbGo_eq]
    simp
  have h2 : mergeArb (mergeVals lang dict arb) dict lang =
      (mergeVals lang dict (mergeVals lang dict arb), countLang lang dict) := by
    rw [mergeArb, mergeArbGo_eq]
    simp
  have key : mergeArb (mergeArb arb dict lang).1 dict lang = mergeArb arb dict lang := by
    rw [h1]
    show mergeArb (mergeVals lang dict arb) dict lang = _
    rw [h2, mergeVals_idem lang dict arb hnd]
  exact ⟨key, by rw [key]⟩

theorem claim_C3_merge_idempotent_witness :
    (([("hello", [("en", "Hello")]), ("x", [("pl", "y")])] : Table).map Prod.fst).Nodup ∧
    (mergeArb (mergeArb [("hello", "old")] [("hello", [("en", "Hello")]), ("x", [("pl", "y")])] "en").1
        [("hello", [("en", "Hello")]), ("x", [("pl", "y")])] "en" =
      mergeArb [("hello", "old")] [("hello", [("en", "Hello")]), ("x", [("pl", "y")])] "en" ∧
    json_dumps (mergeArb
        (mergeArb [("hello", "old")] [("hello", [("en", "Hello")]), ("x", [("pl", "y")])] "en").1
        [("hello", [("en", "Hello")]), ("x", [("pl", "y")])] "en").1 =
      json_dumps (mergeArb [("hello", "old")]
        [("hello", [("en", "Hello")]), ("x", [("pl", "y")])] "en").1) :=
  ⟨by decide,
    claim_C3_merge_idempotent [("hello", "old")]
      [("hello", [("en", "Hello")]), ("x", [("pl", "y")])] "en" (by decide)⟩

/-- Claim C4, amended: provided the incoming table contains no `"@"`-prefixed
TranslationIds (as is the case for every table the tool itself builds from
resource files), every `"@"`-prefixed key of the resource mapping keeps its
value across a merge-write, and every key absent from the incoming table is
left untouched. -/
theorem claim_C4_metadata_preserved (arb : LangMap) (dict : Table) (lang : String)
    (hmeta : ∀ p ∈ dict, pyStartsWith p.1 "@" = false) :
    (∀ k, pyStartsWith k "@" = true → alGet (mergeArb arb dict lang).1 k = alGet arb k) ∧
    (∀ k, alGet dict k = none → alGet (mergeArb arb dict lang).1 k = alGet arb k) := by
  have hfst : (mergeArb arb dict lang).1 = mergeVals lang dict arb := by
    rw [mergeArb, mergeArbGo_eq]
  rw [hfst]
  constructor
  · intro k hk
    apply mergeVals_get_skip
    intro p hp hpk
    have hcontra := hmeta p hp
    rw [hpk, hk] at hcontra
    cases hcontra
  · intro k hk
    apply mergeVals_get_skip
    intro p hp hpk
    exact absurd hpk ((alGet_eq_none_iff dict k).mp hk p hp)

theorem claim_C4_metadata_preserved_witness :
    (∀ p ∈ ([("hello", [("en", "Hello")])] : Table), pyStartsWith p.1 "@" = false) ∧
    alGet (mergeArb [("@hello", "m"), ("hello", "Hi")] [("hello", [("en", "Hello")])] "en").1
        "@hello" =
      alGet [("@hello", "m"), ("hello", "Hi")] "@hello" :=
  ⟨by decide,
    (claim_C4_metadata_preserved [("@hello", "m"), ("hello", "Hi")]
      [("hello", [("en", "Hello")])] "en" (by decide)).1 "@hello" (by decide)⟩

/-- Counterexample to claim C4 as stated: the merge loop never checks for the
`"@"` prefix, so a table whose id is the `"@"`-prefixed key overwrites that
metadata entry: merging a table that maps id `"@hello"` to `"en" -> "X"`
into a resource mapping holding `"@hello" -> "meta"` replaces `"meta"` by
`"X"`. -/
theorem claim_C4_counterexample :
    alGet (mergeArb [("@hello", "meta")] [("@hello", [("en", "X")])] "en").1 "@hello" =
      some "X" ∧
    some "X" ≠ some "meta" ∧ pyStartsWith "@hello" "@" = true := by
  decide

theorem tablesEquiv_maps (t : Table) (F G : LangMap → LangMap)
    (h : ∀ k m, alGet t k = some m → ∀ l, alGet (F m) l = alGet (G m) l) :
    tablesEquiv (t.map (fun p => (p.1, F p.2))) (t.map (fun p => (p.1, G p.2))) := by
  intro k l
  unfold tblLookup
  rw [alGet_map t F k, alGet_map t G k]
  rcases hmk : alGet t k with _ | m
  · rfl
  · show some (alGet (F m) l) = some (alGet (G m) l)
    rw [h k m hmk l]

theorem parse_encoded (t : Table) (L : List String)
    (hLnd : L.Nodup) (hLstrip : ∀ l ∈ L, pyStrip l = l)
    (hids : ∀ p ∈ t, pyStrip p.1 = p.1 ∧ p.1 ≠ "")
    (hnodup : (t.map Prod.fst).Nodup)
    (hne : t ≠ []) :
    parse_sheet_to_dict (("id" :: L) :: t.map (fun p => buildRow L p.1 p.2)) =
      .ok (t.map (fun p =>
        (p.1, L.map (fun l => (l, pyUnescape (pyEscape ((alGet p.2 l).getD ""))))))) := by
  have hLmapstrip : L.map pyStrip = L := by
    rw [List.map_congr_left hLstrip]
    exact List.map_id' L
  have hrowsne : t.map (fun p => buildRow L p.1 p.2) ≠ [] := by
    intro hc
    exact hne (List.map_eq_nil_iff.mp hc)
  have hkept : ∀ r ∈ t.map (fun p => buildRow L p.1 p.2), keptB r = true := by
    intro r hr
    rcases List.mem_map.mp hr with ⟨p, hp, hpr⟩
    rw [← hpr, buildRow_eq_map]
    simp [keptB, rowId, (hids p hp).1, (hids p hp).2]
  have hfilter : (t.map (fun p => buildRow L p.1 p.2)).filter keptB =
      t.map (fun p => buildRow L p.1 p.2) :=
    List.filter_eq_self.mpr hkept
  have hmaprowid : ((t.map (fun p => buildRow L p.1 p.2)).map rowId).Nodup := by
    rw [List.map_map]
    have hptw : ∀ p ∈ t, (rowId ∘ (fun p => buildRow L p.1 p.2)) p = Prod.fst p := by
      intro p hp
      show rowId (buildRow L p.1 p.2) = p.1
      rw [buildRow_eq_map]
      show pyStrip p.1 = p.1
      exact (hids p hp).1
    rw [List.map_congr_left hptw]
    exact hnodup
  have hD : parseRows ("id" :: L) (t.map (fun p => buildRow L p.1 p.2)) [] =
      (t.map (fun p => buildRow L p.1 p.2)).map
        (fun r => (rowId r, rowLangs ("id" :: L) r)) := by
    rw [parseRows_fresh ("id" :: L) (t.map (fun p => buildRow L p.1 p.2)) []
      (by rw [hfilter]; exact hmaprowid) (fun r hr hk => rfl), hfilter]
    simp
  have hentry : ∀ p ∈ t,
      ((fun r => (rowId r, rowLangs ("id" :: L) r)) ∘ (fun p => buildRow L p.1 p.2)) p =
      (p.1, L.map (fun l => (l, pyUnescape (pyEscape ((alGet p.2 l).getD ""))))) := by
    intro p hp
    show (rowId (buildRow L p.1 p.2), rowLangs ("id" :: L) (buildRow L p.1 p.2)) = _
    rw [buildRow_eq_map]
    have hfst : rowId (p.1 :: L.map (fun l => pyEscape ((alGet p.2 l).getD ""))) = p.1 :=
      (hids p hp).1
    have hsnd : rowLangs ("id" :: L) (p.1 :: L.map (fun l => pyEscape ((alGet p.2 l).getD ""))) =
        rowPairs L (L.map (fun l => pyEscape ((alGet p.2 l).getD ""))) :=
      rowLangs_eq_rowPairs ("id" :: L) _ (by
        show (L.map pyStrip).Nodup
        rw [hLmapstrip]
        exact hLnd)
    rw [hfst, hsnd, rowPairs_map]
    have hptw : ∀ l ∈ L, (pyStrip l, pyUnescape (pyEscape ((alGet p.2 l).getD ""))) =
        (l, pyUnescape (pyEscape ((alGet p.2 l).getD ""))) := by
      intro l hl
      rw [hLstrip l hl]
    rw [List.map_congr_left hptw]
  rw [parse_eq_ok "id" L _ hrowsne (by decide), hD, List.map_map,
    List.map_congr_left hentry]

/-- Claim C2, amended: for a nonempty table whose ids are trimmed, nonempty
and distinct, whose language codes are trimmed, and in which every id carries
a value for every language code occurring in the table, encoding with the
init-mode logic and parsing back yields the same table (as a Python value)
modulo newline-escaping normalization of each cell value. -/
theorem claim_C2_roundtrip_normalized (t : Table)
    (hne : t ≠ [])
    (hids : ∀ p ∈ t, pyStrip p.1 = p.1 ∧ p.1 ≠ "")
    (hnodup : (t.map Prod.fst).Nodup)
    (hlangs : ∀ p ∈ t, ∀ q ∈ p.2, pyStrip q.1 = q.1)
    (hcov : ∀ p ∈ t, ∀ l ∈ collectLangs t, (alGet p.2 l).isSome = true) :
    ∃ t', parse_sheet_to_dict (fill_sheet_from_localizations t) = .ok t' ∧
      tablesEquiv t' (normalizeTable t) := by
  have hLnd : (sortStrings (collectLangs t)).Nodup :=
    nodup_sortStrings _ (nodup_collectLangs t)
  have hLstrip : ∀ l ∈ sortStrings (collectLangs t), pyStrip l = l := by
    intro l hl
    rw [mem_sortStrings] at hl
    rcases (mem_collectLangs t l).mp hl with ⟨p, hp, q, hq, hql⟩
    rw [← hql]
    exact hlangs p hp q hq
  have hparse : parse_sheet_to_dict (fill_sheet_from_localizations t) =
      .ok (t.map (fun p => (p.1, (sortStrings (collectLangs t)).map
        (fun l => (l, pyUnescape (pyEscape ((alGet p.2 l).getD ""))))))) := by
    rw [fill_eq]
    exact parse_encoded t (sortStrings (collectLangs t)) hLnd hLstrip hids hnodup hne
  refine ⟨_, hparse, ?_⟩
  have hequiv := tablesEquiv_maps t
    (fun m => (sortStrings (collectLangs t)).map
      (fun l => (l, pyUnescape (pyEscape ((alGet m l).getD "")))))
    (fun m => m.map (fun q => (q.1, normValue q.2)))
    (by
      intro k m hkm l
      have hpmem : (k, m) ∈ t := alGet_mem t k m hkm
      by_cases hl : l ∈ sortStrings (collectLangs t)
      · rw [alGet_keyed_map_mem (sortStrings (collectLangs t))
          (fun l => pyUnescape (pyEscape ((alGet m l).getD ""))) l hLnd hl]
        have hc : (alGet m l).isSome = true :=
          hcov (k, m) hpmem l ((mem_sortStrings _ l).mp hl)
        rcases hml : alGet m l with _ | v
        · rw [hml] at hc
          cases hc
        · rw [alGet_map m normValue l, hml]
          simp [normValue]
      · rw [alGet_keyed_map_not_mem (sortStrings (collectLangs t))
          (fun l => pyUnescape (pyEscape ((alGet m l).getD ""))) l hl,
          alGet_map m normValue l]
        rcases hml : alGet m l with _ | v
        · rfl
        · exfalso
          have hin : l ∈ collectLangs t :=
            (mem_collectLangs t l).mpr ⟨(k, m), hpmem, (l, v), alGet_mem m l v hml, rfl⟩
          exact hl ((mem_sortStrings _ l).mpr hin))
  exact hequiv

theorem claim_C2_roundtrip_normalized_witness :
    (([("greet", [("en", "Hi"), ("pl", "Witaj")]), ("bye", [("en", "B"), ("pl", "C")])] : Table)
        ≠ []) ∧
    (∀ p ∈ ([("greet", [("en", "Hi"), ("pl", "Witaj")]), ("bye", [("en", "B"), ("pl", "C")])] :
        Table), pyStrip p.1 = p.1 ∧ p.1 ≠ "") ∧
    (∀ p ∈ ([("greet", [("en", "Hi"), ("pl", "Witaj")]), ("bye", [("en", "B"), ("pl", "C")])] :
        Table), ∀ q ∈ p.2, pyStrip q.1 = q.1) ∧
    (∃ t', parse_sheet_to_dict (fill_sheet_from_localizations
        [("greet", [("en", "Hi"), ("pl", "Witaj")]), ("bye", [("en", "B"), ("pl", "C")])]) =
        .ok t' ∧
      tablesEquiv t' (normalizeTable
        [("greet", [("en", "Hi"), ("pl", "Witaj")]), ("bye", [("en", "B"), ("pl", "C")])])) :=
  ⟨by decide, by decide, by decide,
    claim_C2_roundtrip_normalized
      [("greet", [("en", "Hi"), ("pl", "Witaj")]), ("bye", [("en", "B"), ("pl", "C")])]
      (by decide) (by decide) (by decide) (by decide) (by decide)⟩

/-- Counterexample to claim C2 as stated: with id `greet` carrying only an
`en` value and id `farewell` carrying only a `pl` value, the encoded grid's header covers both languages, so
parsing back gives `farewell` an `"en"` entry with value `""` that the
original table does not have at all — the round trip is not the identity even
modulo newline-escaping normalization. -/
theorem claim_C2_counterexample :
    parse_sheet_to_dict (fill_sheet_from_localizations
        [("greet", [("en", "Hi")]), ("farewell", [("pl", "X")])]) =
      .ok [("greet", [("en", "Hi"), ("pl", "")]), ("farewell", [("en", ""), ("pl", "X")])] ∧
    tblLookup [("greet", [("en", "Hi"), ("pl", "")]), ("farewell", [("en", ""), ("pl", "X")])]
        "farewell" "en" ≠
      tblLookup (normalizeTable [("greet", [("en", "Hi")]), ("farewell", [("pl", "X")])])
        "farewell" "en" := by
  decide

/-- Claim C1, amended: push-new writes back every kept existing data row
verbatim (in the original header's column order), before any appended new
rows, provided the grid is well-formed for a lossless round trip: trimmed
header cells and id cells, distinct header cells and distinct ids, full-width
rows, and no raw newline characters in the data cells (a raw newline would be
rewritten as the two-character escape `\n`). This holds for every resource
table `locs`, even one holding different values for existing ids. -/
theorem claim_C1_push_preserves_existing_rows (c : String) (hs : List String)
    (dataRows : List (List String)) (locs : Table)
    (hid : pyLower (pyStrip c) = "id")
    (hne : dataRows ≠ [])
    (hhs : ∀ h ∈ hs, pyStrip h = h)
    (hhnd : hs.Nodup)
    (hrows : ∀ r ∈ dataRows, keptB r = true →
      ∃ rc rr, r = rc :: rr ∧ pyStrip rc = rc ∧ rr.length = hs.length ∧
        ∀ cell ∈ rr, '\n' ∉ cell.data)
    (hdist : ((dataRows.filter keptB).map rowId).Nodup) :
    ∃ newRows n, push_values_to_sheet ((c :: hs) :: dataRows) locs =
      .ok ((c :: hs) :: (dataRows.filter keptB ++ newRows), n) := by
  have hmapstrip : hs.map pyStrip = hs := by
    rw [List.map_congr_left hhs]
    exact List.map_id' hs
  have hparse : parse_sheet_to_dict ((c :: hs) :: dataRows) =
      .ok (parseRows (c :: hs) dataRows []) :=
    parse_eq_ok c hs dataRows hne hid
  obtain ⟨ext, n, hmerge⟩ := pushMergeGo_append locs (parseRows (c :: hs) dataRows []) 0
  have hD : parseRows (c :: hs) dataRows [] =
      (dataRows.filter keptB).map (fun r => (rowId r, rowLangs (c :: hs) r)) := by
    rw [parseRows_fresh (c :: hs) dataRows [] hdist (fun r hr hk => rfl)]
    simp
  have hmapD : (parseRows (c :: hs) dataRows []).map
      (fun p => buildRow hs p.1 p.2) = dataRows.filter keptB := by
    rw [hD, List.map_map]
    have hpw : ∀ r ∈ dataRows.filter keptB,
        ((fun p : String × LangMap => buildRow hs p.1 p.2) ∘
          (fun r => (rowId r, rowLangs (c :: hs) r))) r = id r := by
      intro r hr
      have hmem := (List.mem_filter.mp hr).1
      have hk := (List.mem_filter.mp hr).2
      obtain ⟨rc, rr, hreq, hrcinv, hrlen, hrnl⟩ := hrows r hmem hk
      subst hreq
      show buildRow hs (rowId (rc :: rr)) (rowLangs (c :: hs) (rc :: rr)) = id (rc :: rr)
      have hnd' : ((c :: hs).tail.map pyStrip).Nodup := by
        show (hs.map pyStrip).Nodup
        rw [hmapstrip]
        exact hhnd
      have hrl : rowLangs (c :: hs) (rc :: rr) = rowPairs hs rr :=
        rowLangs_eq_rowPairs (c :: hs) (rc :: rr) hnd'
      have hrid : rowId (rc :: rr) = rc := by
        show pyStrip rc = rc
        exact hrcinv
      rw [buildRow_eq_map, hrid, hrl, rowRoundTrip hs rr hhnd hhs hrlen hrnl]
      rfl
    rw [List.map_congr_left hpw, List.map_id]
  refine ⟨ext.map (fun p => buildRow hs p.1 p.2), n, ?_⟩
  simp only [push_values_to_sheet, hparse]
  rw [hmerge]
  show Except.ok ((((parseRows (c :: hs) dataRows []) ++ ext).foldl
      (fun rows p => rows ++ [buildRow hs p.1 p.2]) [c :: hs]), n) = _
  rw [foldl_push (fun p : String × LangMap => buildRow hs p.1 p.2), List.map_append, hmapD]
  simp

theorem claim_C1_push_preserves_existing_rows_witness :
    pyLower (pyStrip "id") = "id" ∧
    (∀ h ∈ ["en"], pyStrip h = h) ∧
    (["en"] : List String).Nodup ∧
    (∀ r ∈ [["greet", "Hi"]], keptB r = true →
      ∃ rc rr, r = rc :: rr ∧ pyStrip rc = rc ∧ rr.length = (["en"] : List String).length ∧
        ∀ cell ∈ rr, '\n' ∉ cell.data) ∧
    ((([["greet", "Hi"]] : List (List String)).filter keptB).map rowId).Nodup ∧
    (∃ newRows n, push_values_to_sheet [["id", "en"], ["greet", "Hi"]]
        [("greet", [("en", "DIFFERENT")]), ("farewell", [("en", "Bye")])] =
      .ok (["id", "en"] ::
        (([["greet", "Hi"]] : List (List String)).filter keptB ++ newRows), n)) :=
  ⟨by decide, by decide, by decide,
    by
      intro r hr hk
      refine ⟨"greet", ["Hi"], ?_, by decide, by decide, by decide⟩
      simp at hr
      rw [hr],
    by decide,
    claim_C1_push_preserves_existing_rows "id" ["en"] [["greet", "Hi"]]
      [("greet", [("en", "DIFFERENT")]), ("farewell", [("en", "Bye")])]
      (by decide) (by decide) (by decide) (by decide)
      (by
        intro r hr hk
        refine ⟨"greet", ["Hi"], ?_, by decide, by decide, by decide⟩
        simp at hr
        rw [hr])
      (by decide)⟩

/-- Counterexample to claim C1 as stated: the sheet row `["greet", "a\nb"]`
(a raw newline inside the cell) has its id present in the sheet, yet push-new
writes the row back as `["greet", "a\\nb"]` — the cell value is altered, so
the original row is absent from the written grid. -/
theorem claim_C1_counterexample :
    push_values_to_sheet [["id", "en"], ["greet", "a\nb"]] [("greet", [("en", "zzz")])] =
      .ok ([["id", "en"], ["greet", "a\\nb"]], 0) ∧
    (["greet", "a\nb"] : List String) ∉ [["id", "en"], ["greet", "a\\nb"]] := by
  decide
